import Mathlib

/-!
Verification of the node-healthcheck-operator reconciliation engine and its
validating webhook, as a shallow embedding in Lean 4.

Sources embedded from the repository:
* `src/api/v1alpha1/nodehealthcheck_webhook.go` — the validating webhook
  (`ValidateCreate`, `ValidateUpdate`, `ValidateDelete`, `validate`,
  `validateMinHealthy`, `validateSelector`, `isRestrictedFieldUpdated`,
  `isRemediating`) together with the kubebuilder webhook registration marker
  (`verbs=update;delete`).
* `src/controllers/nodehealthcheck_controller_test.go` and
  `src/unnamed/part_000` — the controller test suites, used as the pinned
  behaviour of controller functions whose implementation is not part of the
  source tree; those functions are modelled from the specification, as noted
  in their doc comments.

Machine integers are modelled as `Int`/`Nat`; wall-clock instants and
durations as `Int` (an abstract linear time scale, e.g. seconds).
-/

namespace NHC

/-- Wall-clock instants and durations, on one abstract linear scale. -/
abbrev Time := Int

/-! ## Data model: NodeHealthCheck spec and status -/

/-- Model of `intstr.IntOrString` as used for `spec.minHealthy`:
either a plain integer or a percentage (the numeric value of a
`"<p>%"` string). -/
inductive IntOrPercent where
  | int (v : Int)
  | percent (p : Int)
deriving DecidableEq, Repr

/-- Model of `metav1.LabelSelector`: the label matching itself is irrelevant
to the claims, but the webhook needs selector identity (for
`reflect.DeepEqual`) and well-formedness (for
`metav1.LabelSelectorAsSelector` failing). `requirements` stands for the
serialized match labels and expressions; `wellFormed` is true iff
`LabelSelectorAsSelector` succeeds on it. -/
structure Selector where
  requirements : List String
  wellFormed : Bool
deriving DecidableEq, Repr

/-- One entry of `spec.unhealthyConditions`: `(type, status, duration)`. -/
structure UnhealthyCondition where
  condType : String
  status : String
  duration : Time
deriving DecidableEq, Repr

/-- One entry of `spec.escalatingRemediations`: template reference (by name),
order (the ascending sort key of steps) and timeout. -/
structure EscalatingRemediation where
  template : String
  order : Int
  timeout : Time
deriving DecidableEq, Repr

/-- The NodeHealthCheck spec fields the claims depend on. -/
structure NHCSpec where
  selector : Selector
  minHealthy : Option IntOrPercent
  unhealthyConditions : List UnhealthyCondition
  pauseRequests : List String
deriving DecidableEq, Repr

/-- One remediation entry of `status.unhealthyNodes[i].remediations`. -/
structure RemediationStatus where
  resource : String
  started : Time
  timedOut : Option Time
deriving DecidableEq, Repr

/-- One entry of `status.unhealthyNodes`. -/
structure UnhealthyNodeStatus where
  name : String
  remediations : List RemediationStatus
deriving DecidableEq, Repr

/-- `status.phase` values. -/
inductive Phase where
  | enabled
  | remediating
  | paused
  | disabled
deriving DecidableEq, Repr

/-- The NHC status fields the claims depend on.  `inFlightRemediations` is
the map node-name → earliest start time, modelled as an association list. -/
structure NHCStatus where
  healthyNodes : Nat
  observedNodes : Nat
  inFlightRemediations : List (String × Time)
  unhealthyNodes : List UnhealthyNodeStatus
  phase : Phase
deriving DecidableEq, Repr

/-- A whole NodeHealthCheck object (the metadata the webhook reads is just
the name). -/
structure NodeHealthCheck where
  name : String
  spec : NHCSpec
  status : NHCStatus
deriving DecidableEq, Repr

/-! ## Webhook embedding (src/api/v1alpha1/nodehealthcheck_webhook.go)

Go's `error` is modelled as `Option String`: `none` is the nil error,
`some msg` an error carrying `msg`. -/

/-- Constant `OngoingRemediationError` of the webhook package. -/
def OngoingRemediationError : String := "prohibited due to running remediation"

/-- Constant `minHealthyError` of the webhook package. -/
def minHealthyError : String := "MinHealthy must not be negative"

/-- Constant `invalidSelectorError` of the webhook package. -/
def invalidSelectorError : String := "Invalid selector"

/-- `validateMinHealthy`: nil minHealthy is an error; an `Int`-typed value
below zero is an error; anything else passes. -/
def validateMinHealthy (r : NodeHealthCheck) : Option String :=
  match r.spec.minHealthy with
  | none => some "MinHealthy must not be empty"
  | some (.int v) => if v < 0 then some minHealthyError else none
  | some (.percent _) => none

/-- `validateSelector`: errors iff `metav1.LabelSelectorAsSelector` fails. -/
def validateSelector (r : NodeHealthCheck) : Option String :=
  if r.spec.selector.wellFormed then none else some invalidSelectorError

/-- `errors.NewAggregate`: nil iff every member error is nil; otherwise an
aggregate of the non-nil messages. -/
def newAggregate (errs : List (Option String)) : Option String :=
  match errs.filterMap id with
  | [] => none
  | msgs => some (String.intercalate ", " msgs)

/-- `validate`: aggregate of `validateMinHealthy` and `validateSelector`. -/
def validate (r : NodeHealthCheck) : Option String :=
  newAggregate [validateMinHealthy r, validateSelector r]

/-- `isRemediating`: true iff `status.inFlightRemediations` is non-empty. -/
def isRemediating (r : NodeHealthCheck) : Bool :=
  r.status.inFlightRemediations.length > 0

/-- `isRestrictedFieldUpdated`: the only restricted field is the node
selector, compared with `reflect.DeepEqual`. -/
def isRestrictedFieldUpdated (r old : NodeHealthCheck) : Bool :=
  r.spec.selector ≠ old.spec.selector

/-- `ValidateCreate`: just `validate`. -/
def ValidateCreate (r : NodeHealthCheck) : Option String :=
  validate r

/-- `ValidateUpdate`: `validate` first, then the restricted-field check
guarded by `isRemediating`. -/
def ValidateUpdate (r old : NodeHealthCheck) : Option String :=
  match validate r with
  | some e => some e
  | none =>
    if isRemediating r && isRestrictedFieldUpdated r old then
      some ("selector update " ++ OngoingRemediationError)
    else
      none

/-- `ValidateDelete`: rejects while remediating. -/
def ValidateDelete (r : NodeHealthCheck) : Option String :=
  if isRemediating r then some ("deletion " ++ OngoingRemediationError) else none

/-- Admission verbs for which the validating webhook is registered, from the
kubebuilder marker in the webhook source: `verbs=update;delete`. `create`
is absent, so the webhook is not consulted when an object is created. -/
def registeredWebhookVerbs : List String := ["update", "delete"]

/-- Modelled from the spec: the API-server (CRD schema) validation of
`spec.minHealthy`, which is not part of the source tree. Per the spec
(§6, §8) and the validation tests, admission rejects a percentage outside
0%–100% as invalid, while integer values pass (the kubebuilder minimum
marker does not work for IntOrString, as the skipped test notes). -/
def crdValidationAccepts (r : NodeHealthCheck) : Bool :=
  match r.spec.minHealthy with
  | some (.percent p) => 0 ≤ p && p ≤ 100
  | _ => true

/-- Admission decision for a create request: CRD schema validation, plus the
webhook only when registered for the `create` verb (it is not). -/
def admissionAcceptsCreate (r : NodeHealthCheck) : Bool :=
  crdValidationAccepts r &&
    (!(registeredWebhookVerbs.contains "create") || (ValidateCreate r).isNone)

/-- Modelled from the spec: the deferred `minHealthy` validation performed by
the reconciler (not in the source tree). Per the spec (§6, §7) and the
reconcile test `minHealthy is negative`, a negative integer `minHealthy`
disables the NHC: phase `Disabled` with `Disabled` condition reason
`InvalidConfig`. The result is `some (phase, conditionReason)` when the
config is invalid, `none` otherwise. -/
def reconcileConfigCheck (r : NodeHealthCheck) : Option (Phase × String) :=
  match r.spec.minHealthy with
  | some (.int v) => if v < 0 then some (.disabled, "InvalidConfig") else none
  | _ => none

/-! ## Node conditions and the watch mapper predicate -/

/-- One `v1.NodeCondition`: `(type, status, lastTransitionTime)`. -/
structure NodeCondition where
  condType : String
  status : String
  lastTransitionTime : Time
deriving DecidableEq, Repr

/-- The `(type, status)` pair of a node condition. -/
def NodeCondition.pair (c : NodeCondition) : String × String :=
  (c.condType, c.status)

/-- Whether some condition of `l` carries the same `(type, status)` pair as
`c`. -/
def pairMem (c : NodeCondition) (l : List NodeCondition) : Bool :=
  l.any (fun d => d.condType == c.condType && d.status == c.status)

/-- Modelled from the spec: `conditionsNeedReconcile` of the controller
package (implementation not in the source tree). Per the spec (§4.7) a node
condition set counts as changed iff the set of `(type, status)` pairs
differs, and the repository's tests pin one more guard the spec omits
(`no Ready condition exists on new node` must not request a reconcile):
when the new condition list carries no `Ready`-type condition the function
returns false. Structured after the tests: Ready guard, then a length
comparison, then a containment scan of the old pairs over the new list. -/
def conditionsNeedReconcile (oldConds newConds : List NodeCondition) : Bool :=
  if !(newConds.any (fun c => c.condType == "Ready")) then
    false
  else if oldConds.length ≠ newConds.length then
    true
  else
    oldConds.any (fun co => !(pairMem co newConds))

/-- The specification's change criterion, stated in the spec's own words:
the old and new condition lists carry the same set of `(type, status)`
pairs (each pair of one list occurs in the other). `conditionsNeedReconcile`
is compared against the negation of this. -/
def samePairSet (oldConds newConds : List NodeCondition) : Bool :=
  oldConds.all (fun c => pairMem c newConds) &&
    newConds.all (fun c => pairMem c oldConds)

/-! ## Health predicate evaluator -/

/-- The node condition observed for an unhealthy-condition entry: the node
condition with the entry's type, kept only when its status equals the
entry's status. -/
def observedCond (nodeConds : List NodeCondition) (c : UnhealthyCondition) :
    Option NodeCondition :=
  match nodeConds.find? (fun n => n.condType == c.condType) with
  | none => none
  | some n => if n.status == c.status then some n else none

/-- The instant at which an observed-but-not-yet-expired unhealthy condition
becomes actionable: `lastTransitionTime + duration + 1s` (the fixed one
second safety buffer). -/
def readyAt (c : UnhealthyCondition) (n : NodeCondition) : Time :=
  n.lastTransitionTime + c.duration + 1

/-- Minimum of an optional accumulator and a new candidate instant. -/
def minOpt (acc : Option Time) (t : Time) : Option Time :=
  match acc with
  | none => some t
  | some e => some (min e t)

/-- Modelled from the spec: the loop of `matchesUnhealthyConditions`
(implementation not in the source tree). Walks the NHC's unhealthy
conditions; an observed entry whose transition lies at least `duration` in
the past makes the node match immediately (returning no expiry); an
observed entry that has not yet held for `duration` contributes its
`readyAt` instant to the earliest-expiry accumulator. -/
def matchesAux (nodeConds : List NodeCondition) (now : Time) :
    List UnhealthyCondition → Option Time → Bool × Option Time
  | [], acc => (false, acc)
  | c :: rest, acc =>
    match observedCond nodeConds c with
    | none => matchesAux nodeConds now rest acc
    | some n =>
      if n.lastTransitionTime + c.duration ≤ now then
        (true, none)
      else
        matchesAux nodeConds now rest (minOpt acc (readyAt c n))

/-- Modelled from the spec: `matchesUnhealthyConditions` of the controller
package (implementation not in the source tree). Returns
`(match, earliestReadyAt)` per spec §4.1: `match = true` iff some
`(type, status)` entry is currently observed and has held for at least its
`duration`; otherwise the second component is the earliest `readyAt` among
the observed-but-not-yet-expired entries (`none` when no entry is
observed). -/
def matchesUnhealthyConditions (spec : NHCSpec) (nodeConds : List NodeCondition)
    (now : Time) : Bool × Option Time :=
  matchesAux nodeConds now spec.unhealthyConditions none

/-! ## Lease manager -/

/-- A coordination lease (`coordv1.Lease`) for one node. -/
structure Lease where
  holderIdentity : Option String
  leaseDuration : Time
  acquireTime : Time
  renewTime : Time
deriving DecidableEq, Repr

/-- The holder identity this NHC writes into leases:
`NodeHealthCheck-<nhcName>`. -/
def leaseHolderIdent (nhcName : String) : String :=
  "NodeHealthCheck-" ++ nhcName

/-- Default requeue delay when a node's lease is held by someone else. -/
def RequeueIfLeaseTaken : Time := 2

/-- Outcome of one lease-acquisition attempt. -/
inductive LeaseOutcome where
  | acquired (lease : Lease)
  | requeue (after : Time)
deriving DecidableEq, Repr

/-- Modelled from the spec: the lease-acquisition step of the lease manager
(implementation not in the source tree). Per spec §4.3: create when absent;
renew when already held by this NHC; take over when expired; requeue after
`RequeueIfLeaseTaken` when held by another identity and unexpired. On a
fresh acquisition `acquireTime` and `renewTime` are both set to now. -/
def obtainNodeLease (nhcName : String) (now duration : Time)
    (existing : Option Lease) : LeaseOutcome :=
  match existing with
  | none =>
    .acquired ⟨some (leaseHolderIdent nhcName), duration, now, now⟩
  | some l =>
    if l.holderIdentity = some (leaseHolderIdent nhcName) then
      .acquired { l with renewTime := now, leaseDuration := duration }
    else if l.renewTime + l.leaseDuration < now then
      .acquired ⟨some (leaseHolderIdent nhcName), duration, now, now⟩
    else
      .requeue RequeueIfLeaseTaken

/-- Result of the per-node remediation attempt: the created CR's name (none
when no CR was created), the lease state afterwards, and a requested
requeue delay. -/
structure RemediateAttempt where
  createdCR : Option String
  lease : Option Lease
  requeueAfter : Option Time
deriving DecidableEq, Repr

/-- Modelled from the spec: the per-unhealthy-node step of the reconciler
(implementation not in the source tree). Per spec §4.3 and §4.6 step 7 the
remediation CR may only be created once the node's lease is confirmed held
by this NHC; otherwise nothing is created and the reconcile requeues. -/
def tryRemediateNode (nhcName nodeName : String) (now duration : Time)
    (existing : Option Lease) : RemediateAttempt :=
  match obtainNodeLease nhcName now duration existing with
  | .acquired l => ⟨some nodeName, some l, none⟩
  | .requeue t => ⟨none, existing, some t⟩

/-- Result of tearing down one recovered node's remediation. -/
structure NodeTeardown where
  crDeleted : Bool
  lease : Option Lease
  inFlightRemediations : List (String × Time)
  unhealthyNodes : List UnhealthyNodeStatus
deriving DecidableEq, Repr

/-- Modelled from the spec: the recovery path for one remediated node that
became healthy (implementation not in the source tree). Per spec §4.3
(Release) the CR is deleted and the status cleared unconditionally, while
the lease is deleted only when held by this NHC; a foreign lease is left
untouched. -/
def onNodeHealthy (nhcName : String) (lease : Option Lease) : NodeTeardown :=
  let leaseAfter :=
    match lease with
    | some l =>
      if l.holderIdentity = some (leaseHolderIdent nhcName) then none else some l
    | none => none
  ⟨true, leaseAfter, [], []⟩

/-! ## Escalation controller -/

/-- A remediation CR as the escalation controller sees it: its template, the
`remediation.medik8s.io/nhc-timed-out` annotation stamp, and its status
conditions as `(type, status)` pairs written by the remediator. -/
structure RemediationCR where
  template : String
  nhcTimedOutAnn : Option Time
  conditions : List (String × String)
deriving DecidableEq, Repr

/-- One started escalation step: its CR, the step's `started` stamp, and the
`timedOut` stamp of the status entry. -/
structure StepRecord where
  cr : RemediationCR
  started : Time
  timedOut : Option Time
deriving DecidableEq, Repr

/-- Per-(NHC, node) escalation state: the current step index and the records
of all started steps, in step order (`records.length = stepIdx + 1` while
remediation is ongoing). -/
structure EscalationState where
  stepIdx : Nat
  records : List StepRecord
deriving DecidableEq, Repr

/-- Progress stoppage: the CR's status conditions contain a condition with
`type=Succeeded, status=False`. -/
def progressStopped (cr : RemediationCR) : Bool :=
  cr.conditions.any (fun c => c.1 == "Succeeded" && c.2 == "False")

/-- Modelled from the spec: the Advance transition of the escalation
controller (implementation not in the source tree). Per spec §4.5: when the
current step is past `stepStart + stepTimeout`, or its CR reports progress
stoppage, annotate the current CR with `nhc-timed-out`, set the status
entry's `timedOut`, increment `stepIdx` and start the next step's CR,
keeping all prior CRs in place; when no further step exists the state is
terminal and unchanged. `steps` is the escalation list in ascending order
of `order`. -/
def advanceEscalation (steps : List EscalatingRemediation) (st : EscalationState)
    (now : Time) : EscalationState :=
  match st.records.getLast? with
  | none => st
  | some cur =>
    let timeoutHit :=
      match steps[st.stepIdx]? with
      | some step => decide (cur.started + step.timeout < now)
      | none => false
    if timeoutHit || progressStopped cur.cr then
      match steps[st.stepIdx + 1]? with
      | some next =>
        { stepIdx := st.stepIdx + 1,
          records := st.records.dropLast ++
            [{ cur with
                cr := { cur.cr with nhcTimedOutAnn := some now },
                timedOut := some now },
              { cr := ⟨next.template, none, []⟩, started := now, timedOut := none }] }
      | none => st
    else st

/-! ## Reconcile model (minHealthy gate and idempotence) -/

/-- A selected node as the reconciler classifies it. -/
structure ClusterNode where
  name : String
  healthy : Bool
deriving DecidableEq, Repr

/-- The `minHealthy` floor resolved against the observed node count: plain
integers verbatim, percentages rounded up
(`intstr.GetScaledValueFromIntOrPercent` with round-up). -/
def minHealthyValue (m : IntOrPercent) (observed : Nat) : Int :=
  match m with
  | .int v => v
  | .percent p => (p * observed + 99) / 100

/-- A same-kind remediation CR of the reconcile model: name equals the node
name, body is the deep copy of the template's inner spec. -/
structure ReconcileCR where
  name : String
  body : String
deriving DecidableEq, Repr

/-- What one reconcile leaves behind: the NHC-owned CRs and the NHC status. -/
structure ReconcileOutcome where
  crs : List ReconcileCR
  status : NHCStatus
deriving DecidableEq, Repr

/-- The `minHealthy` floor of an NHC spec against the observed node count; a
missing value contributes no floor. -/
def minHealthyFloor (spec : NHCSpec) (observed : Nat) : Int :=
  match spec.minHealthy with
  | some m => minHealthyValue m observed
  | none => 0

/-- The reconciler's minHealthy gate: remediation may start only while the
healthy selected nodes meet the floor. -/
def canRemediate (spec : NHCSpec) (nodes : List ClusterNode) : Bool :=
  minHealthyFloor spec nodes.length ≤ ((nodes.filter (·.healthy)).length : Int)

/-- Names of the unhealthy selected nodes. -/
def unhealthyNames (nodes : List ClusterNode) : List String :=
  (nodes.filter (fun n => !n.healthy)).map (·.name)

/-- Modelled from the spec: the CR set one reconcile leaves behind (spec
§4.6 steps 5, 7–9; implementation not in the source tree). CRs of recovered
or unselected nodes are dropped (teardown and orphan reaping); when the
minHealthy gate passes, one same-kind CR per unhealthy node is ensured,
its body the deep copy of the template's inner spec; when the gate blocks,
no new CR is created and only the kept existing ones remain. -/
def reconcileCRs (spec : NHCSpec) (templateBody : String)
    (nodes : List ClusterNode) (existingCRs : List ReconcileCR) : List ReconcileCR :=
  if canRemediate spec nodes then
    (unhealthyNames nodes).map (fun n => ⟨n, templateBody⟩)
  else
    existingCRs.filter (fun c => (unhealthyNames nodes).contains c.name)

/-- Modelled from the spec: the status one reconcile rebuilds from the node
classification and the CR set (spec §4.6 step 10; implementation not in the
source tree). Each unhealthy node is listed, with a remediation entry iff
its CR exists; phase is `Remediating` iff a remediation is in flight.
Start stamps are abstracted to 0. -/
def reconcileStatus (nodes : List ClusterNode) (crs : List ReconcileCR) : NHCStatus :=
  let inFlight := crs.map (fun c => (c.name, (0 : Time)))
  ⟨(nodes.filter (·.healthy)).length, nodes.length, inFlight,
    (unhealthyNames nodes).map (fun n =>
      ⟨n, if crs.any (fun c => c.name == n) then [⟨n, 0, none⟩] else []⟩),
    if inFlight.isEmpty then .enabled else .remediating⟩

/-- Modelled from the spec: one reconcile of an enabled, unpaused NHC with a
single same-kind template (spec §4.6 steps 3, 5, 7–10; implementation not
in the source tree): classify nodes, settle the CR set, rebuild the
status. -/
def reconcile (spec : NHCSpec) (templateBody : String) (nodes : List ClusterNode)
    (existingCRs : List ReconcileCR) : ReconcileOutcome :=
  ⟨reconcileCRs spec templateBody nodes existingCRs,
    reconcileStatus nodes (reconcileCRs spec templateBody nodes existingCRs)⟩

/-! ## Sample objects for concrete evaluations -/

/-- A NodeHealthCheck with the given selector requirements, minHealthy and
in-flight remediations, everything else defaulted. -/
def mkNHC (reqs : List String) (minH : Option IntOrPercent)
    (inFlight : List (String × Time)) : NodeHealthCheck :=
  ⟨"test", ⟨⟨reqs, true⟩, minH, [], []⟩, ⟨0, 0, inFlight, [], .enabled⟩⟩

/-! ## Theorems -/

/-- C10: for every NodeHealthCheck whose `spec.minHealthy` field is nil,
`ValidateCreate` and `ValidateUpdate` return an error — `validateMinHealthy`
reports `MinHealthy must not be empty` — so a nil minHealthy never passes
webhook validation. -/
theorem c10_nil_min_healthy_rejected (r old : NodeHealthCheck)
    (h : r.spec.minHealthy = none) :
    validateMinHealthy r = some "MinHealthy must not be empty" ∧
      (ValidateCreate r).isSome = true ∧ (ValidateUpdate r old).isSome = true := by
  have hv : validateMinHealthy r = some "MinHealthy must not be empty" := by
    simp [validateMinHealthy, h]
  have hval : (validate r).isSome = true := by
    cases hs : validateSelector r <;>
      simp [validate, newAggregate, hv, hs, List.filterMap]
  refine ⟨hv, ?_, ?_⟩
  · simpa [ValidateCreate] using hval
  · simp only [ValidateUpdate]
    cases hvv : validate r with
    | none => rw [hvv] at hval; simp at hval
    | some e => simp

/-- C10 witness: the nil-minHealthy rejection at a concrete NHC. -/
theorem c10_witness :
    validateMinHealthy (mkNHC [] none []) = some "MinHealthy must not be empty" ∧
      (ValidateCreate (mkNHC [] none [])).isSome = true ∧
      (ValidateUpdate (mkNHC [] none []) (mkNHC [] none [])).isSome = true :=
  c10_nil_min_healthy_rejected (mkNHC [] none []) (mkNHC [] none []) rfl

/-- C8: while `status.inFlightRemediations` is non-empty the webhook rejects
selector-changing updates and rejects deletion; with it empty, deletion is
permitted and updates are subject only to the ordinary field validation. -/
theorem c8_webhook_remediation_guards (r old : NodeHealthCheck) :
    (r.status.inFlightRemediations ≠ [] → r.spec.selector ≠ old.spec.selector →
      (ValidateUpdate r old).isSome = true) ∧
    (r.status.inFlightRemediations ≠ [] → (ValidateDelete r).isSome = true) ∧
    (r.status.inFlightRemediations = [] →
      ValidateDelete r = none ∧ ValidateUpdate r old = validate r) := by
  refine ⟨?_, ?_, ?_⟩
  · intro hin hsel
    simp only [ValidateUpdate]
    cases hv : validate r with
    | some e => simp
    | none =>
      have h1 : isRemediating r = true := by
        simp [isRemediating, List.length_pos, hin]
      have h2 : isRestrictedFieldUpdated r old = true := by
        simp [isRestrictedFieldUpdated, hsel]
      simp [h1, h2]
  · intro hin
    have h1 : isRemediating r = true := by
      simp [isRemediating, List.length_pos, hin]
    simp [ValidateDelete, h1]
  · intro hin
    have h1 : isRemediating r = false := by
      simp [isRemediating, hin]
    refine ⟨by simp [ValidateDelete, h1], ?_⟩
    simp only [ValidateUpdate]
    cases hv : validate r with
    | some e => simp
    | none => simp [h1]

/-- C8 witness: the guards at concrete NHCs, one remediating with a changed
selector and one idle. -/
theorem c8_witness :
    (ValidateUpdate (mkNHC ["a"] (some (.int 1)) [("n1", 0)])
        (mkNHC ["b"] (some (.int 1)) [])).isSome = true ∧
      (ValidateDelete (mkNHC ["a"] (some (.int 1)) [("n1", 0)])).isSome = true ∧
      (ValidateDelete (mkNHC ["a"] (some (.int 1)) []) = none ∧
        ValidateUpdate (mkNHC ["a"] (some (.int 1)) [])
            (mkNHC ["b"] (some (.int 1)) []) =
          validate (mkNHC ["a"] (some (.int 1)) [])) :=
  ⟨(c8_webhook_remediation_guards (mkNHC ["a"] (some (.int 1)) [("n1", 0)])
        (mkNHC ["b"] (some (.int 1)) [])).1 (by decide) (by decide),
    (c8_webhook_remediation_guards (mkNHC ["a"] (some (.int 1)) [("n1", 0)])
        (mkNHC ["b"] (some (.int 1)) [])).2.1 (by decide),
    (c8_webhook_remediation_guards (mkNHC ["a"] (some (.int 1)) [])
        (mkNHC ["b"] (some (.int 1)) [])).2.2 rfl⟩

/-- C6: a NodeHealthCheck with a negative integer `minHealthy` is not
rejected at admission on create (the validating webhook is registered for
update and delete only, and the CRD schema passes integers); the reconcile
config check handles it, yielding phase `Disabled` with condition reason
`InvalidConfig`; at admission on create exactly the out-of-range
percentages are rejected. -/
theorem c6_negative_min_healthy_deferred (r : NodeHealthCheck) :
    (∀ v : Int, r.spec.minHealthy = some (.int v) → v < 0 →
      admissionAcceptsCreate r = true ∧
        reconcileConfigCheck r = some (.disabled, "InvalidConfig")) ∧
    (admissionAcceptsCreate r = false ↔
      ∃ p, r.spec.minHealthy = some (.percent p) ∧ (p < 0 ∨ 100 < p)) := by
  constructor
  · intro v hv hneg
    constructor
    · simp [admissionAcceptsCreate, crdValidationAccepts, registeredWebhookVerbs, hv]
    · simp [reconcileConfigCheck, hv, hneg]
  · cases hm : r.spec.minHealthy with
    | none => simp [admissionAcceptsCreate, crdValidationAccepts, registeredWebhookVerbs, hm]
    | some m =>
      cases m with
      | int v =>
        simp [admissionAcceptsCreate, crdValidationAccepts, registeredWebhookVerbs, hm]
      | percent p =>
        simp only [admissionAcceptsCreate, crdValidationAccepts, registeredWebhookVerbs, hm]
        constructor
        · intro hfail
          refine ⟨p, rfl, ?_⟩
          simp at hfail
          omega
        · rintro ⟨p', hp', hrange⟩
          obtain rfl : p = p' := by simpa using hp'
          simp
          omega

/-- C6 witness: negative integer minHealthy accepted at admission and
disabled at reconcile; a 150 percent minHealthy rejected at admission. -/
theorem c6_witness :
    (admissionAcceptsCreate (mkNHC [] (some (.int (-10))) []) = true ∧
        reconcileConfigCheck (mkNHC [] (some (.int (-10))) []) =
          some (.disabled, "InvalidConfig")) ∧
      admissionAcceptsCreate (mkNHC [] (some (.percent 150)) []) = false :=
  ⟨(c6_negative_min_healthy_deferred (mkNHC [] (some (.int (-10))) [])).1
      (-10) rfl (by decide),
    (c6_negative_min_healthy_deferred (mkNHC [] (some (.percent 150)) [])).2.mpr
      ⟨150, rfl, Or.inr (by decide)⟩⟩

/-- C2: an unhealthy node whose lease is held by another identity and is
unexpired yields no remediation CR and a requeue after
`RequeueIfLeaseTaken`; whenever a CR is created the resulting lease is held
by `NodeHealthCheck-<nhcName>`, and when the node's lease was not
previously held by this NHC the acquisition is fresh, with
`acquireTime = renewTime`. -/
theorem c2_lease_gates_cr_creation (nhcName nodeName x : String)
    (now duration : Time) :
    (∀ l : Lease, l.holderIdentity = some x → x ≠ leaseHolderIdent nhcName →
      now ≤ l.renewTime + l.leaseDuration →
      tryRemediateNode nhcName nodeName now duration (some l) =
        ⟨none, some l, some RequeueIfLeaseTaken⟩) ∧
    (∀ existing : Option Lease, ∀ cr : String,
      (tryRemediateNode nhcName nodeName now duration existing).createdCR = some cr →
      ∃ l2 : Lease,
        (tryRemediateNode nhcName nodeName now duration existing).lease = some l2 ∧
          l2.holderIdentity = some (leaseHolderIdent nhcName) ∧
          ((∀ l0 : Lease, existing = some l0 →
              l0.holderIdentity ≠ some (leaseHolderIdent nhcName)) →
            l2.acquireTime = l2.renewTime)) := by
  constructor
  · intro l hx hne hunexp
    have hnotOurs : ¬ l.holderIdentity = some (leaseHolderIdent nhcName) := by
      rw [hx]
      intro hcontra
      exact hne (by injection hcontra)
    have hnotExp : ¬ l.renewTime + l.leaseDuration < now := not_lt.mpr hunexp
    simp [tryRemediateNode, obtainNodeLease, hnotOurs, hnotExp]
  · intro existing cr hcr
    cases existing with
    | none =>
      refine ⟨⟨some (leaseHolderIdent nhcName), duration, now, now⟩, ?_, rfl, fun _ => rfl⟩
      simp [tryRemediateNode, obtainNodeLease]
    | some l =>
      by_cases hours : l.holderIdentity = some (leaseHolderIdent nhcName)
      · refine ⟨{ l with renewTime := now, leaseDuration := duration }, ?_, ?_, ?_⟩
        · simp [tryRemediateNode, obtainNodeLease, hours]
        · simpa using hours
        · intro hforeign
          exact absurd hours (hforeign l rfl)
      · by_cases hexp : l.renewTime + l.leaseDuration < now
        · refine ⟨⟨some (leaseHolderIdent nhcName), duration, now, now⟩, ?_, rfl, fun _ => rfl⟩
          simp [tryRemediateNode, obtainNodeLease, hours, hexp]
        · exfalso
          simp [tryRemediateNode, obtainNodeLease, hours, hexp] at hcr

/-- C2 witness: a foreign unexpired lease blocks CR creation at concrete
values, and after its expiry the CR is created under a freshly acquired
lease held by this NHC with equal acquire and renew times. -/
theorem c2_witness :
    tryRemediateNode "test" "node-1" 1 3 (some ⟨some "notNHC", 3, 0, 0⟩) =
        ⟨none, some ⟨some "notNHC", 3, 0, 0⟩, some RequeueIfLeaseTaken⟩ ∧
      ∃ l2 : Lease,
        (tryRemediateNode "test" "node-1" 4 3 (some ⟨some "notNHC", 3, 0, 0⟩)).lease =
            some l2 ∧
          l2.holderIdentity = some (leaseHolderIdent "test") ∧
          ((∀ l0 : Lease, (some ⟨some "notNHC", 3, 0, 0⟩ : Option Lease) = some l0 →
              l0.holderIdentity ≠ some (leaseHolderIdent "test")) →
            l2.acquireTime = l2.renewTime) :=
  ⟨(c2_lease_gates_cr_creation "test" "node-1" "notNHC" 1 3).1
      ⟨some "notNHC", 3, 0, 0⟩ rfl (by decide) (by decide),
    (c2_lease_gates_cr_creation "test" "node-1" "notNHC" 4 3).2
      (some ⟨some "notNHC", 3, 0, 0⟩) "node-1" (by decide)⟩

/-- C7: when a remediated node becomes healthy the remediation CR is deleted
and the status is cleared (inFlightRemediations and unhealthyNodes emptied)
unconditionally, while the node lease is deleted only when held by this
NHC; a lease held by a different identity is left completely unchanged. -/
theorem c7_lease_release_frame (nhcName : String) (l : Lease) :
    ((onNodeHealthy nhcName (some l)).crDeleted = true ∧
      (onNodeHealthy nhcName (some l)).inFlightRemediations = [] ∧
      (onNodeHealthy nhcName (some l)).unhealthyNodes = []) ∧
    (l.holderIdentity = some (leaseHolderIdent nhcName) →
      (onNodeHealthy nhcName (some l)).lease = none) ∧
    (l.holderIdentity ≠ some (leaseHolderIdent nhcName) →
      (onNodeHealthy nhcName (some l)).lease = some l) := by
  refine ⟨⟨rfl, rfl, rfl⟩, ?_, ?_⟩
  · intro hours
    simp [onNodeHealthy, hours]
  · intro hforeign
    simp [onNodeHealthy, hforeign]

/-- C7 witness: teardown with a foreign lease at concrete values — CR gone,
status cleared, lease untouched. -/
theorem c7_witness :
    ((onNodeHealthy "test" (some ⟨some "someone-else", 3, 0, 0⟩)).crDeleted = true ∧
      (onNodeHealthy "test" (some ⟨some "someone-else", 3, 0, 0⟩)).inFlightRemediations = [] ∧
      (onNodeHealthy "test" (some ⟨some "someone-else", 3, 0, 0⟩)).unhealthyNodes = []) ∧
      (onNodeHealthy "test" (some ⟨some "someone-else", 3, 0, 0⟩)).lease =
        some ⟨some "someone-else", 3, 0, 0⟩ :=
  ⟨(c7_lease_release_frame "test" ⟨some "someone-else", 3, 0, 0⟩).1,
    (c7_lease_release_frame "test" ⟨some "someone-else", 3, 0, 0⟩).2.2 (by decide)⟩

/-- C3: under escalating remediations, when the current step is past
`stepStart + stepTimeout` or its CR carries a `Succeeded=False` status
condition (immediate failure, before the timeout), the current CR is
annotated `nhc-timed-out`, its status entry's `timedOut` is set, the step
index is incremented and a CR for the next step is created, while all
prior CRs remain in place. -/
theorem c3_escalation_advance (steps : List EscalatingRemediation)
    (st : EscalationState) (now : Time) (cur : StepRecord)
    (step next : EscalatingRemediation)
    (hcur : st.records.getLast? = some cur)
    (hstep : steps[st.stepIdx]? = some step)
    (hnext : steps[st.stepIdx + 1]? = some next)
    (hfail : cur.started + step.timeout < now ∨ progressStopped cur.cr = true) :
    advanceEscalation steps st now =
        ⟨st.stepIdx + 1,
          st.records.dropLast ++
            [{ cur with
                cr := { cur.cr with nhcTimedOutAnn := some now },
                timedOut := some now },
              ⟨⟨next.template, none, []⟩, now, none⟩]⟩ ∧
      (advanceEscalation steps st now).records.take (st.records.length - 1) =
        st.records.take (st.records.length - 1) := by
  have hcond : (decide (cur.started + step.timeout < now) || progressStopped cur.cr) = true := by
    rcases hfail with h | h
    · simp [h]
    · simp [h]
  have hmain : advanceEscalation steps st now =
      ⟨st.stepIdx + 1,
        st.records.dropLast ++
          [{ cur with
              cr := { cur.cr with nhcTimedOutAnn := some now },
              timedOut := some now },
            ⟨⟨next.template, none, []⟩, now, none⟩]⟩ := by
    unfold advanceEscalation
    rw [hcur]
    simp only [hstep, hnext, hcond]
    simp
  refine ⟨hmain, ?_⟩
  rw [hmain]
  have hlen : st.records.dropLast.length = st.records.length - 1 := by
    simp [List.length_dropLast]
  calc (st.records.dropLast ++
          [{ cur with
              cr := { cur.cr with nhcTimedOutAnn := some now },
              timedOut := some now },
            ⟨⟨next.template, none, []⟩, now, none⟩]).take (st.records.length - 1)
      = st.records.dropLast.take (st.records.length - 1) := by
        apply List.take_append_of_le_length
        omega
    _ = st.records.dropLast := by
        rw [← hlen]
        exact List.take_length st.records.dropLast
    _ = st.records.take (st.records.length - 1) := by
        rw [List.dropLast_eq_take]

/-- C3 witness: a two-step escalation at concrete values where the current
CR reports `Succeeded=False` before its timeout; the CR is annotated, the
status entry's timedOut set, and the next step's CR started. -/
theorem c3_witness :
    advanceEscalation [⟨"t0", 0, 100⟩, ⟨"t1", 5, 100⟩]
        ⟨0, [⟨⟨"t0", none, [("Succeeded", "False")]⟩, 0, none⟩]⟩ 3 =
      ⟨1, [⟨⟨"t0", some 3, [("Succeeded", "False")]⟩, 0, some 3⟩,
        ⟨⟨"t1", none, []⟩, 3, none⟩]⟩ := by
  have h := (c3_escalation_advance [⟨"t0", 0, 100⟩, ⟨"t1", 5, 100⟩]
      ⟨0, [⟨⟨"t0", none, [("Succeeded", "False")]⟩, 0, none⟩]⟩ 3
      ⟨⟨"t0", none, [("Succeeded", "False")]⟩, 0, none⟩
      ⟨"t0", 0, 100⟩ ⟨"t1", 5, 100⟩ rfl rfl rfl (Or.inr (by decide))).1
  simpa using h

/-- C1: when the healthy selected nodes are below the `minHealthy` floor
(computed from the int-or-percent value against the observed count) at
reconcile start, the reconcile creates no NHC-owned remediation CR; with no
pre-existing CRs, the unhealthy nodes are still listed in
`status.unhealthyNodes` with empty remediations lists,
`inFlightRemediations` stays empty and the phase is `Enabled`. -/
theorem c1_min_healthy_blocks_creation (spec : NHCSpec) (body : String)
    (nodes : List ClusterNode) (existing : List ReconcileCR) (m : IntOrPercent)
    (hm : spec.minHealthy = some m)
    (hlow : ((nodes.filter (·.healthy)).length : Int) < minHealthyValue m nodes.length) :
    (∀ c ∈ (reconcile spec body nodes existing).crs, c ∈ existing) ∧
      (existing = [] →
        (reconcile spec body nodes existing).crs = [] ∧
          (reconcile spec body nodes existing).status.inFlightRemediations = [] ∧
          (reconcile spec body nodes existing).status.unhealthyNodes =
            (unhealthyNames nodes).map (fun n => ⟨n, []⟩) ∧
          (reconcile spec body nodes existing).status.phase = .enabled) := by
  have hcanf : canRemediate spec nodes = false := by
    simp only [canRemediate, minHealthyFloor, hm, decide_eq_false_iff_not, not_le]
    exact hlow
  constructor
  · intro c hc
    simp only [reconcile, reconcileCRs, hcanf] at hc
    simp at hc
    exact hc.1
  · intro he
    subst he
    simp [reconcile, reconcileCRs, reconcileStatus, hcanf]

/-- C1 witness: the min-healthy block at the test scenario — seven nodes,
four unhealthy now, `minHealthy = 51 percent`: three healthy nodes are
below the floor of four, so no CR is created, all four unhealthy nodes are
listed without remediations, and the phase stays Enabled. -/
theorem c1_witness :
    (reconcile ⟨⟨[], true⟩, some (.percent 51), [], []⟩ "size: foo"
        [⟨"unhealthy-worker-node-4", false⟩, ⟨"unhealthy-worker-node-3", false⟩,
          ⟨"unhealthy-worker-node-2", false⟩, ⟨"unhealthy-worker-node-1", false⟩,
          ⟨"healthy-worker-node-3", true⟩, ⟨"healthy-worker-node-2", true⟩,
          ⟨"healthy-worker-node-1", true⟩] []).crs = [] ∧
      (reconcile ⟨⟨[], true⟩, some (.percent 51), [], []⟩ "size: foo"
        [⟨"unhealthy-worker-node-4", false⟩, ⟨"unhealthy-worker-node-3", false⟩,
          ⟨"unhealthy-worker-node-2", false⟩, ⟨"unhealthy-worker-node-1", false⟩,
          ⟨"healthy-worker-node-3", true⟩, ⟨"healthy-worker-node-2", true⟩,
          ⟨"healthy-worker-node-1", true⟩] []).status.inFlightRemediations = [] ∧
      (reconcile ⟨⟨[], true⟩, some (.percent 51), [], []⟩ "size: foo"
        [⟨"unhealthy-worker-node-4", false⟩, ⟨"unhealthy-worker-node-3", false⟩,
          ⟨"unhealthy-worker-node-2", false⟩, ⟨"unhealthy-worker-node-1", false⟩,
          ⟨"healthy-worker-node-3", true⟩, ⟨"healthy-worker-node-2", true⟩,
          ⟨"healthy-worker-node-1", true⟩] []).status.unhealthyNodes =
        [⟨"unhealthy-worker-node-4", []⟩, ⟨"unhealthy-worker-node-3", []⟩,
          ⟨"unhealthy-worker-node-2", []⟩, ⟨"unhealthy-worker-node-1", []⟩] ∧
      (reconcile ⟨⟨[], true⟩, some (.percent 51), [], []⟩ "size: foo"
        [⟨"unhealthy-worker-node-4", false⟩, ⟨"unhealthy-worker-node-3", false⟩,
          ⟨"unhealthy-worker-node-2", false⟩, ⟨"unhealthy-worker-node-1", false⟩,
          ⟨"healthy-worker-node-3", true⟩, ⟨"healthy-worker-node-2", true⟩,
          ⟨"healthy-worker-node-1", true⟩] []).status.phase = .enabled := by
  have h := (c1_min_healthy_blocks_creation
      ⟨⟨[], true⟩, some (.percent 51), [], []⟩ "size: foo"
      [⟨"unhealthy-worker-node-4", false⟩, ⟨"unhealthy-worker-node-3", false⟩,
        ⟨"unhealthy-worker-node-2", false⟩, ⟨"unhealthy-worker-node-1", false⟩,
        ⟨"healthy-worker-node-3", true⟩, ⟨"healthy-worker-node-2", true⟩,
        ⟨"healthy-worker-node-1", true⟩] [] (.percent 51) rfl (by decide)).2 rfl
  simpa using h

/-- C9: one reconcile is idempotent — running a second reconcile on the same
NHC spec and the same nodes, starting from the CRs the first one left
behind, yields exactly the same CRs (names and bodies) and exactly the same
status. -/
theorem c9_reconcile_idempotent (spec : NHCSpec) (body : String)
    (nodes : List ClusterNode) (existing : List ReconcileCR) :
    reconcile spec body nodes (reconcile spec body nodes existing).crs =
      reconcile spec body nodes existing := by
  have hcrs : reconcileCRs spec body nodes (reconcileCRs spec body nodes existing) =
      reconcileCRs spec body nodes existing := by
    cases hcan : canRemediate spec nodes with
    | true => simp [reconcileCRs, hcan]
    | false => simp [reconcileCRs, hcan, List.filter_filter]
  simp [reconcile, hcrs]

/-- Bridging lemma: `pairMem` is membership of the `(type, status)` pair in
the mapped pair list. -/
theorem pairMem_iff (c : NodeCondition) (l : List NodeCondition) :
    pairMem c l = true ↔ c.pair ∈ l.map NodeCondition.pair := by
  simp only [pairMem, List.any_eq_true, List.mem_map, NodeCondition.pair,
    Bool.and_eq_true, beq_iff_eq]
  constructor
  · rintro ⟨d, hd, ht, hs⟩
    exact ⟨d, hd, by rw [ht, hs]⟩
  · rintro ⟨d, hd, hpair⟩
    have ht : d.condType = c.condType := congrArg Prod.fst hpair
    have hs : d.status = c.status := congrArg Prod.snd hpair
    exact ⟨d, hd, ht, hs⟩

/-- A duplicate-free list included in another is no longer than it. -/
theorem nodup_subset_length_le {α : Type} [DecidableEq α] {l₁ l₂ : List α}
    (h₁ : l₁.Nodup) (hsub : ∀ a ∈ l₁, a ∈ l₂) : l₁.length ≤ l₂.length := by
  calc l₁.length = l₁.toFinset.card := (List.toFinset_card_of_nodup h₁).symm
    _ ≤ l₂.toFinset.card := by
        apply Finset.card_le_card
        intro x hx
        exact List.mem_toFinset.mpr (hsub x (List.mem_toFinset.mp hx))
    _ ≤ l₂.length := l₂.toFinset_card_le

/-- Inclusion between duplicate-free lists of equal length is mutual. -/
theorem mem_of_subset_length_eq {α : Type} [DecidableEq α] {l₁ l₂ : List α}
    (h₁ : l₁.Nodup) (h₂ : l₂.Nodup) (hlen : l₁.length = l₂.length)
    (hsub : ∀ a ∈ l₁, a ∈ l₂) : ∀ a ∈ l₂, a ∈ l₁ := by
  intro a ha
  have hfin : l₁.toFinset ⊆ l₂.toFinset := by
    intro x hx
    exact List.mem_toFinset.mpr (hsub x (List.mem_toFinset.mp hx))
  have hcard : l₂.toFinset.card ≤ l₁.toFinset.card := by
    rw [List.toFinset_card_of_nodup h₁, List.toFinset_card_of_nodup h₂, hlen]
  have heq : l₁.toFinset = l₂.toFinset := Finset.eq_of_subset_of_card_le hfin hcard
  exact List.mem_toFinset.mp (heq ▸ List.mem_toFinset.mpr ha)

/-- Any-of-negations is the negation of all. -/
theorem any_not_eq_not_all {α : Type} (l : List α) (f : α → Bool) :
    (l.any fun x => !(f x)) = !(l.all f) := by
  induction l with
  | nil => rfl
  | cons x xs ih => simp [List.any_cons, List.all_cons, ih, Bool.not_and]

/-- The old-pair containment scan succeeding means every old pair occurs in
the new list. -/
theorem all_pairMem_iff (oldConds newConds : List NodeCondition) :
    (oldConds.all fun c => pairMem c newConds) = true ↔
      ∀ p ∈ oldConds.map NodeCondition.pair, p ∈ newConds.map NodeCondition.pair := by
  simp only [List.all_eq_true]
  constructor
  · intro h p hp
    obtain ⟨c, hc, rfl⟩ := List.mem_map.mp hp
    exact (pairMem_iff c newConds).mp (h c hc)
  · intro h c hc
    exact (pairMem_iff c newConds).mpr (h c.pair (List.mem_map_of_mem _ hc))

/-- C5 counterexample: the claim demands `conditionsNeedReconcile = true`
whenever the `(type, status)` pair sets differ, but at old conditions `[]`
and new conditions `[(DiskPressure, True)]` the pair sets differ while the
function returns false (the new node carries no Ready condition), as the
repository's own test pins. -/
theorem c5_counterexample :
    ¬ (conditionsNeedReconcile [] [⟨"DiskPressure", "True", 0⟩] = true ↔
        samePairSet [] [⟨"DiskPressure", "True", 0⟩] = false) := by decide

/-- C5 amended: when the old and new `(type, status)` pair lists are
duplicate-free (node conditions are keyed by type),
`conditionsNeedReconcile` returns true iff the new list contains a
Ready-type condition and the pair sets differ; in particular a permutation
of the old conditions never triggers, and neither does any new list without
a Ready condition. -/
theorem c5_amended_conditions_need_reconcile (oldConds newConds : List NodeCondition)
    (hold : (oldConds.map NodeCondition.pair).Nodup)
    (hnew : (newConds.map NodeCondition.pair).Nodup) :
    conditionsNeedReconcile oldConds newConds = true ↔
      (newConds.any fun c => c.condType == "Ready") = true ∧
        samePairSet oldConds newConds = false := by
  unfold conditionsNeedReconcile
  cases hready : newConds.any (fun c => c.condType == "Ready") with
  | false => simp
  | true =>
    simp only [Bool.not_true, Bool.false_eq_true, if_false, true_and]
    by_cases hlen : oldConds.length = newConds.length
    · rw [if_neg (not_not_intro hlen)]
      have hAB : (oldConds.all fun c => pairMem c newConds) = true →
          (newConds.all fun c => pairMem c oldConds) = true := by
        intro hAall
        apply (all_pairMem_iff newConds oldConds).mpr
        apply mem_of_subset_length_eq hold hnew
        · simpa using hlen
        · exact (all_pairMem_iff oldConds newConds).mp hAall
      rw [show (oldConds.any fun co => !(pairMem co newConds)) =
          !(oldConds.all fun c => pairMem c newConds) from
            any_not_eq_not_all oldConds (fun c => pairMem c newConds)]
      unfold samePairSet
      cases hA : oldConds.all fun c => pairMem c newConds with
      | true =>
        have hB := hAB hA
        simp [hA, hB]
      | false => simp [hA]
    · rw [if_pos hlen]
      have hfalse : samePairSet oldConds newConds = false := by
        cases hsps : samePairSet oldConds newConds with
        | false => rfl
        | true =>
          exfalso
          have hab : (oldConds.all fun c => pairMem c newConds) = true ∧
              (newConds.all fun c => pairMem c oldConds) = true := by
            simpa [samePairSet, Bool.and_eq_true] using hsps
          have h1 : (oldConds.map NodeCondition.pair).length ≤
              (newConds.map NodeCondition.pair).length :=
            nodup_subset_length_le hold ((all_pairMem_iff oldConds newConds).mp hab.1)
          have h2 : (newConds.map NodeCondition.pair).length ≤
              (oldConds.map NodeCondition.pair).length :=
            nodup_subset_length_le hnew ((all_pairMem_iff newConds oldConds).mp hab.2)
          apply hlen
          simpa using le_antisymm h1 h2
      simp [hfalse]

/-- C5 witness: the amended characterization at a concrete status change —
Ready flips from True to False, the pair sets differ, and a reconcile is
requested. -/
theorem c5_witness :
    ((([⟨"Ready", "True", 0⟩] : List NodeCondition).map NodeCondition.pair).Nodup ∧
        (([⟨"Ready", "False", 0⟩] : List NodeCondition).map NodeCondition.pair).Nodup) ∧
      (conditionsNeedReconcile [⟨"Ready", "True", 0⟩] [⟨"Ready", "False", 0⟩] = true ↔
        (([⟨"Ready", "False", 0⟩] : List NodeCondition).any
            fun c => c.condType == "Ready") = true ∧
          samePairSet [⟨"Ready", "True", 0⟩] [⟨"Ready", "False", 0⟩] = false) :=
  ⟨⟨by decide, by decide⟩,
    c5_amended_conditions_need_reconcile [⟨"Ready", "True", 0⟩] [⟨"Ready", "False", 0⟩]
      (by decide) (by decide)⟩

/-- The first component of `matchesAux` is true iff some entry is observed
and has held for at least its duration, regardless of the accumulator. -/
theorem matchesAux_fst (nodeConds : List NodeCondition) (now : Time) :
    ∀ (cs : List UnhealthyCondition) (acc : Option Time),
      (matchesAux nodeConds now cs acc).fst = true ↔
        ∃ c ∈ cs, ∃ n, observedCond nodeConds c = some n ∧
          n.lastTransitionTime + c.duration ≤ now := by
  intro cs
  induction cs with
  | nil => intro acc; simp [matchesAux]
  | cons c rest ih =>
    intro acc
    cases hobs : observedCond nodeConds c with
    | none =>
      simp only [matchesAux, hobs]
      rw [ih acc]
      simp [hobs]
    | some n =>
      by_cases hexp : n.lastTransitionTime + c.duration ≤ now
      · simp only [matchesAux, hobs, if_pos hexp]
        simp only [List.mem_cons]
        constructor
        · intro _
          exact ⟨c, Or.inl rfl, n, hobs, hexp⟩
        · intro _
          trivial
      · simp only [matchesAux, hobs, if_neg hexp]
        rw [ih (minOpt acc (readyAt c n))]
        simp only [List.mem_cons]
        constructor
        · rintro ⟨c', hc', hrest⟩
          exact ⟨c', Or.inr hc', hrest⟩
        · rintro ⟨c', hc' | hc', n', hobs', hexp'⟩
          · exfalso
            subst hc'
            rw [hobs] at hobs'
            cases hobs'
            exact hexp hexp'
          · exact ⟨c', hc', n', hobs', hexp'⟩

/-- When `matchesAux` reports no match, its second component is the fold of
the accumulator with the ready instants of every observed entry. -/
theorem matchesAux_snd (nodeConds : List NodeCondition) (now : Time) :
    ∀ (cs : List UnhealthyCondition) (acc : Option Time),
      (matchesAux nodeConds now cs acc).fst = false →
      (matchesAux nodeConds now cs acc).snd =
        (cs.filterMap fun c => (observedCond nodeConds c).map (readyAt c)).foldl
          minOpt acc := by
  intro cs
  induction cs with
  | nil => intro acc _; simp [matchesAux]
  | cons c rest ih =>
    intro acc hfst
    cases hobs : observedCond nodeConds c with
    | none =>
      simp only [matchesAux, hobs] at hfst ⊢
      rw [ih acc hfst]
      simp [hobs]
    | some n =>
      by_cases hexp : n.lastTransitionTime + c.duration ≤ now
      · exfalso
        simp only [matchesAux, hobs, if_pos hexp] at hfst
        exact Bool.true_eq_false.mp hfst
      · simp only [matchesAux, hobs, if_neg hexp] at hfst ⊢
        rw [ih (minOpt acc (readyAt c n)) hfst]
        simp [hobs]

/-- Folding `minOpt` from a present accumulator is folding `min`. -/
theorem foldl_minOpt_some (l : List Time) :
    ∀ e : Time, l.foldl minOpt (some e) = some (l.foldl min e) := by
  induction l with
  | nil => intro e; rfl
  | cons x xs ih =>
    intro e
    simp only [List.foldl_cons]
    rw [show minOpt (some e) x = some (min e x) from rfl, ih (min e x)]

/-- The fold of `min` bounds the seed and every element. -/
theorem foldl_min_le (l : List Time) :
    ∀ e : Time, l.foldl min e ≤ e ∧ ∀ x ∈ l, l.foldl min e ≤ x := by
  induction l with
  | nil =>
    intro e
    exact ⟨le_refl e, by simp⟩
  | cons x xs ih =>
    intro e
    have h := ih (min e x)
    refine ⟨le_trans h.1 (min_le_left e x), ?_⟩
    intro y hy
    rcases List.mem_cons.mp hy with rfl | hy'
    · exact le_trans h.1 (min_le_right e y)
    · exact h.2 y hy'

/-- The fold of `min` is the seed or one of the elements. -/
theorem foldl_min_mem (l : List Time) :
    ∀ e : Time, l.foldl min e = e ∨ l.foldl min e ∈ l := by
  induction l with
  | nil => intro e; exact Or.inl rfl
  | cons x xs ih =>
    intro e
    simp only [List.foldl_cons]
    rcases ih (min e x) with h | h
    · rcases le_total e x with hex | hxe
      · left
        rw [h, min_eq_left hex]
      · right
        rw [h, min_eq_right hxe]
        exact List.mem_cons_self x xs
    · right
      exact List.mem_cons_of_mem x h

/-- C4: the health predicate evaluator reports a match iff some
`(type, status)` entry of `unhealthyConditions` is currently observed on
the node and its last transition lies at least `duration` in the past;
with no entry observed the returned expiry is nil; and when entries are
observed but none has yet held for its duration, the returned expiry is
the earliest `transitionTime + duration + 1s` (the fixed one-second
buffer) among them. -/
theorem c4_matches_unhealthy_conditions (spec : NHCSpec)
    (nodeConds : List NodeCondition) (now : Time) :
    ((matchesUnhealthyConditions spec nodeConds now).fst = true ↔
      ∃ c ∈ spec.unhealthyConditions, ∃ n, observedCond nodeConds c = some n ∧
        n.lastTransitionTime + c.duration ≤ now) ∧
    ((∀ c ∈ spec.unhealthyConditions, observedCond nodeConds c = none) →
      (matchesUnhealthyConditions spec nodeConds now).snd = none) ∧
    (∀ c ∈ spec.unhealthyConditions, ∀ n, observedCond nodeConds c = some n →
      now < n.lastTransitionTime + c.duration →
      (∀ c' ∈ spec.unhealthyConditions, ∀ n', observedCond nodeConds c' = some n' →
        now < n'.lastTransitionTime + c'.duration ∧ readyAt c n ≤ readyAt c' n') →
      (matchesUnhealthyConditions spec nodeConds now).snd = some (readyAt c n)) := by
  refine ⟨matchesAux_fst nodeConds now spec.unhealthyConditions none, ?_, ?_⟩
  · intro hnone
    have hfst : (matchesUnhealthyConditions spec nodeConds now).fst = false := by
      cases hf : (matchesUnhealthyConditions spec nodeConds now).fst with
      | false => rfl
      | true =>
        exfalso
        obtain ⟨c, hc, n, hobs, -⟩ :=
          (matchesAux_fst nodeConds now spec.unhealthyConditions none).mp hf
        rw [hnone c hc] at hobs
        cases hobs
    have hsnd := matchesAux_snd nodeConds now spec.unhealthyConditions none hfst
    simp only [matchesUnhealthyConditions] at hsnd ⊢
    rw [hsnd]
    have hnil : (spec.unhealthyConditions.filterMap
        fun c => (observedCond nodeConds c).map (readyAt c)) = [] := by
      rw [List.filterMap_eq_nil_iff]
      intro c hc
      rw [hnone c hc]
      rfl
    rw [hnil]
    rfl
  · intro c hc n hobs hearly hall
    have hfst : (matchesUnhealthyConditions spec nodeConds now).fst = false := by
      cases hf : (matchesUnhealthyConditions spec nodeConds now).fst with
      | false => rfl
      | true =>
        exfalso
        obtain ⟨c', hc', n', hobs', hexp'⟩ :=
          (matchesAux_fst nodeConds now spec.unhealthyConditions none).mp hf
        exact absurd hexp' (not_le.mpr (hall c' hc' n' hobs').1)
    have hsnd := matchesAux_snd nodeConds now spec.unhealthyConditions none hfst
    simp only [matchesUnhealthyConditions] at hsnd ⊢
    rw [hsnd]
    have hmem : readyAt c n ∈ spec.unhealthyConditions.filterMap
        fun c' => (observedCond nodeConds c').map (readyAt c') := by
      rw [List.mem_filterMap]
      exact ⟨c, hc, by rw [hobs]; rfl⟩
    cases hL : spec.unhealthyConditions.filterMap
        fun c' => (observedCond nodeConds c').map (readyAt c') with
    | nil =>
      rw [hL] at hmem
      cases hmem
    | cons x xs =>
      rw [hL] at hmem
      rw [show ((x :: xs).foldl minOpt none) = xs.foldl minOpt (some x) from rfl,
        foldl_minOpt_some xs x]
      have hub : ∀ y ∈ x :: xs, readyAt c n ≤ y := by
        intro y hy
        have hy' : y ∈ spec.unhealthyConditions.filterMap
            fun c' => (observedCond nodeConds c').map (readyAt c') := by
          rw [hL]
          exact hy
        obtain ⟨c', hc', hy''⟩ := List.mem_filterMap.mp hy'
        obtain ⟨n', hobs', rfl⟩ := Option.map_eq_some'.mp hy''
        exact (hall c' hc' n' hobs').2
      have hle1 : xs.foldl min x ≤ readyAt c n := by
        rcases List.mem_cons.mp hmem with heq | hmemxs
        · rw [heq]
          exact (foldl_min_le xs x).1
        · exact (foldl_min_le xs x).2 _ hmemxs
      have hle2 : readyAt c n ≤ xs.foldl min x := by
        rcases foldl_min_mem xs x with hfe | hfm
        · rw [hfe]
          exact hub x (List.mem_cons_self x xs)
        · exact hub _ (List.mem_cons_of_mem x hfm)
      rw [le_antisymm hle1 hle2]

/-- C4 witness: one unhealthy-condition entry observed since instant 0 with
duration 10 at now 5 — no match yet, expiry at 11 = 0 + 10 + 1; and with
the status not matching, no entry observed and the expiry nil. -/
theorem c4_witness :
    (matchesUnhealthyConditions ⟨⟨[], true⟩, some (.int 1), [⟨"type1", "True", 10⟩], []⟩
        [⟨"type1", "True", 0⟩] 5).snd = some 11 ∧
      (matchesUnhealthyConditions ⟨⟨[], true⟩, some (.int 1), [⟨"type1", "True", 10⟩], []⟩
        [⟨"type1", "Unknown", 0⟩] 5).snd = none := by
  constructor
  · have h := (c4_matches_unhealthy_conditions
        ⟨⟨[], true⟩, some (.int 1), [⟨"type1", "True", 10⟩], []⟩
        [⟨"type1", "True", 0⟩] 5).2.2 ⟨"type1", "True", 10⟩ (by simp)
        ⟨"type1", "True", 0⟩ rfl (by decide)
    have hall : ∀ c' ∈ [(⟨"type1", "True", 10⟩ : UnhealthyCondition)], ∀ n',
        observedCond [⟨"type1", "True", 0⟩] c' = some n' →
        (5 : Time) < n'.lastTransitionTime + c'.duration ∧
          readyAt ⟨"type1", "True", 10⟩ ⟨"type1", "True", 0⟩ ≤ readyAt c' n' := by
      intro c' hc' n' hn'
      rw [List.mem_singleton] at hc'
      subst hc'
      rw [show observedCond [(⟨"type1", "True", 0⟩ : NodeCondition)]
          ⟨"type1", "True", 10⟩ = some ⟨"type1", "True", 0⟩ from rfl] at hn'
      cases hn'
      exact ⟨by decide, by decide⟩
    exact h hall
  · exact (c4_matches_unhealthy_conditions
        ⟨⟨[], true⟩, some (.int 1), [⟨"type1", "True", 10⟩], []⟩
        [⟨"type1", "Unknown", 0⟩] 5).2.1
      (by
        intro c hc
        rw [List.mem_singleton] at hc
        subst hc
        rfl)

end NHC
